import Mathlib

/-!
Shallow embedding of the deno-node fs/http shim (`dn-fs.ts`, `http.ts`,
`utils/collect.ts`, `utils/fromValue.ts`, `utils/getIterator.ts`,
`unnamed/part_003` = `forAwait`).
-/

namespace DnFs

/-- A Node-compatible error record (interface `NodeError` in `dn-fs.ts`):
a message plus optional `code` and `syscall` fields. -/
structure NodeErr where
  message : String
  code : Option String := none
  syscall : Option String := none
  deriving Repr, DecidableEq

/-- `containsSub needle hay` holds when `needle` occurs as a contiguous
substring of `hay` (the semantics of an unanchored literal regex match). -/
def containsSub (needle hay : String) : Bool :=
  hay.toList.tails.any (fun t => needle.toList.isPrefixOf t)

/-- The not-found message pattern used in every catch-block of `dn-fs.ts`:
`/(cannot find the (file|path) specified)|(No such file or directory)/`,
an unanchored regex, i.e. a substring test for one of three fixed phrases. -/
def notFoundMsg (msg : String) : Bool :=
  containsSub "cannot find the file specified" msg ||
  containsSub "cannot find the path specified" msg ||
  containsSub "No such file or directory" msg

example : notFoundMsg "x No such file or directory y" = true := by decide
example : notFoundMsg "permission denied" = false := by decide

/-- The synthesized not-found error every catch-block builds:
`new Error("ENOENT: no such file or directory, <verb> '<path>'")` with
`code = "ENOENT"` and `syscall = <verb>`. In `dn-fs.ts` the verb is the
string `"open"` in every operation except `stat`, which uses `"stat"`. -/
def enoentErr (verb path : String) : NodeErr :=
  { message := s!"ENOENT: no such file or directory, {verb} '{path}'"
    code := some "ENOENT"
    syscall := some verb }

/-- Catch-handler of `readFile` (`dn-fs.ts` lines 87-99): synthesize the
ENOENT error with verb `open` on a matching message, rethrow otherwise. -/
def readFileOnError (path : String) (err : NodeErr) : NodeErr :=
  if notFoundMsg err.message then enoentErr "open" path else err

/-- Catch-handler of `unlink` (`dn-fs.ts`, verb `open`). -/
def unlinkOnError (path : String) (err : NodeErr) : NodeErr :=
  if notFoundMsg err.message then enoentErr "open" path else err

/-- Catch-handler of `rmdir` (`dn-fs.ts`, verb `open`). -/
def rmdirOnError (path : String) (err : NodeErr) : NodeErr :=
  if notFoundMsg err.message then enoentErr "open" path else err

/-- Catch-handler of `stat` (`dn-fs.ts` lines 309-323): the only operation
whose synthesized error uses verb/syscall `stat`. -/
def statOnError (path : String) (err : NodeErr) : NodeErr :=
  if notFoundMsg err.message then enoentErr "stat" path else err

/-- Catch-handler of `lstat` (`dn-fs.ts`, verb `open`). -/
def lstatOnError (path : String) (err : NodeErr) : NodeErr :=
  if notFoundMsg err.message then enoentErr "open" path else err

/-- Catch-handler of `readlink` (`dn-fs.ts`, verb `open`). -/
def readlinkOnError (path : String) (err : NodeErr) : NodeErr :=
  if notFoundMsg err.message then enoentErr "open" path else err

/-- The platform error Deno raises for a missing path on a POSIX host
(its message matches the not-found pattern). -/
def denoNotFound : NodeErr :=
  { message := "No such file or directory (os error 2)" }

-- ----------------------------------------------------------
-- symlink (dn-fs.ts lines 401-415)
-- ----------------------------------------------------------

/-- Effect of one `Deno.symlink(oldpath, newpath)` platform call: a link
file is created at `newpath` and it references `oldpath`. -/
structure SymlinkRec where
  location : String
  pointsTo : String
  deriving Repr, DecidableEq

/-- Platform primitive `Deno.symlink(oldpath, newpath, opts)`: creates
`newpath` as a symbolic link to `oldpath`. -/
def denoSymlink (oldpath newpath : String) : SymlinkRec :=
  { location := newpath, pointsTo := oldpath }

/-- The shim `symlink(target, path, type)` from `dn-fs.ts`: it binds
`oldPath = path`, `newPath = target` and calls
`Deno.symlink(oldPath, newPath, { type })` (the `type` branch always takes
the three-argument call since `type` defaults to `"file"`, a truthy value). -/
def symlink (target path : String) : SymlinkRec :=
  let oldPath := path
  let newPath := target
  denoSymlink oldPath newPath

-- ----------------------------------------------------------
-- mkdir mode normalization (dn-fs.ts lines 233-241)
-- ----------------------------------------------------------

/-- `mode` option of `mkdir`: `number | string` in the source. -/
inductive ModeArg where
  | num (n : Int)
  | str (s : String)
  deriving Repr, DecidableEq

/-- Value of one character as a digit in base `radix` (JS `parseInt`
digit alphabet: 0-9, a-z, A-Z). -/
def digitVal (radix : Nat) (c : Char) : Option Nat :=
  let v : Option Nat :=
    if c.toNat ≥ 48 && c.toNat ≤ 57 then some (c.toNat - 48)
    else if c.toNat ≥ 97 && c.toNat ≤ 122 then some (c.toNat - 87)
    else if c.toNat ≥ 65 && c.toNat ≤ 90 then some (c.toNat - 55)
    else none
  match v with
  | some d => if d < radix then some d else none
  | none => none

/-- Greedily consume digits of base `radix`, returning the accumulated
value, or `none` when no digit was consumed at all (JS `NaN`). -/
def parseDigits (radix : Nat) : List Char → Nat → Bool → Option Nat
  | [], acc, seen => if seen then some acc else none
  | c :: cs, acc, seen =>
    match digitVal radix c with
    | some d => parseDigits radix cs (acc * radix + d) true
    | none => if seen then some acc else none

/-- JavaScript `parseInt(s)` with the radix argument omitted, as called in
`mkdir`: skip leading whitespace, optional sign, hexadecimal on a `0x`/`0X`
prefix, decimal otherwise; `none` models `NaN`. -/
def jsParseInt (s : String) : Option Int :=
  let cs := s.toList.dropWhile (fun c => c = ' ' || c = '\t' || c = '\n' || c = '\r')
  let signAndRest : Int × List Char :=
    match cs with
    | '-' :: rest => (-1, rest)
    | '+' :: rest => (1, rest)
    | rest => (1, rest)
  let body := signAndRest.2
  let hex : Option (List Char) :=
    match body with
    | '0' :: 'x' :: rest => some rest
    | '0' :: 'X' :: rest => some rest
    | _ => none
  match hex with
  | some rest => (parseDigits 16 rest 0 false).map (fun n => signAndRest.1 * n)
  | none => (parseDigits 10 body 0 false).map (fun n => signAndRest.1 * n)

/-- The mode actually passed to `Deno.mkdir` by the shim:
`typeof mode === "string" ? parseInt(mode) : mode` (`dn-fs.ts` line 239);
`none` models passing `NaN`. -/
def normalizeMode : ModeArg → Option Int
  | .num n => some n
  | .str s => jsParseInt s

example : normalizeMode (.str "777") = some 777 := by decide
example : normalizeMode (.str "0x1ff") = some 511 := by decide
example : normalizeMode (.num 511) = some 511 := by decide

-- ----------------------------------------------------------
-- lstat timestamp augmentation (dn-fs.ts lines 336-366)
-- ----------------------------------------------------------

/-- The timestamp fields of a platform `Deno.FileInfo`. A `Date` is
modeled by its millisecond epoch value; `none` models `null`/absent. -/
structure DenoFileInfo where
  atime : Option Int
  mtime : Option Int
  birthtime : Option Int
  ctime : Option Int
  deriving Repr, DecidableEq

/-- The record `lstat` returns (the `NodeFileInfo` cast in `dn-fs.ts`):
the platform fields plus the derived `*Ms` fields; a `*Ms` field is `none`
when the corresponding assignment in the source never ran. -/
structure NodeFileInfo where
  atime : Option Int
  mtime : Option Int
  birthtime : Option Int
  ctime : Option Int
  atimeMs : Option Int
  mtimeMs : Option Int
  birthtimeMs : Option Int
  ctimeMs : Option Int
  deriving Repr, DecidableEq

/-- `new Date(x).getTime()` where `x` is a `Date` or `null`: copying a
`Date` preserves its epoch value and `new Date(null)` is the epoch, so a
`null` input yields `0`. -/
def newDateGetTime : Option Int → Int
  | some t => t
  | none => 0

/-- The body of `lstat` after the platform call (`dn-fs.ts` lines 340-352):
each `*Ms` field is assigned only under `if (result.atime)`-style truthiness
guards (a `Date` object is truthy, `null` is falsy); then
`result.ctime = result.ctime ?? result.birthtime` and `result.ctimeMs` is
assigned unconditionally from the defaulted `ctime`. -/
def lstatAugment (fi : DenoFileInfo) : NodeFileInfo :=
  let ctime2 := match fi.ctime with
    | some t => some t
    | none => fi.birthtime
  { atime := fi.atime
    mtime := fi.mtime
    birthtime := fi.birthtime
    ctime := ctime2
    atimeMs := if fi.atime.isSome then some (newDateGetTime fi.atime) else none
    mtimeMs := if fi.mtime.isSome then some (newDateGetTime fi.mtime) else none
    birthtimeMs :=
      if fi.birthtime.isSome then some (newDateGetTime fi.birthtime) else none
    ctimeMs := some (newDateGetTime ctime2) }

-- ----------------------------------------------------------
-- fromValue (utils/fromValue.ts)
-- ----------------------------------------------------------

/-- JS `Array.prototype.pop()`: removes and returns the last element
(`undefined`, modeled `none`, on an empty array). -/
def jsPop (l : List α) : Option α × List α :=
  (l.getLast?, l.dropLast)

/-- One `next()` call of the iterator built by `fromValue`
(`utils/fromValue.ts`): with queue state `q` it resolves to
`{ done: q.length === 0, value: q.pop() }` — `done` is read before the
`pop` mutates the queue — and leaves the popped queue behind. The first
component of the result is `done`, the second the delivered value. -/
def fromValueNext (q : List α) : (Bool × Option α) × List α :=
  let done := q.length == 0
  let popped := jsPop q
  ((done, popped.1), popped.2)

/-- The `return()` method of the iterator built by `fromValue`: it
discards the queue (`queue = []`). -/
def fromValueIterReturn (_q : List α) : List α := []

/-- The results of `n` successive `next()` calls starting from queue
state `q`. -/
def fromValueRun (q : List α) : Nat → List (Bool × Option α)
  | 0 => []
  | n + 1 =>
    let step := fromValueNext q
    step.1 :: fromValueRun step.2 n

-- ----------------------------------------------------------
-- resolve: callback/options disambiguation (dn-fs.ts lines 58-71)
-- ----------------------------------------------------------

/-- A JavaScript argument value as the `resolve` helper classifies it:
a function (identified by a tag), a truthy non-function object carrying
option fields, or the falsy `null` / `undefined`. -/
inductive JSArg (α : Type) where
  | fn (tag : Nat)
  | obj (o : α)
  | nullv
  | undef
  deriving Repr, DecidableEq

/-- `typeof x === "function"`. -/
def isFn : JSArg α → Bool
  | .fn _ => true
  | _ => false

/-- JavaScript truthiness of an argument: functions and objects are
truthy, `null` and `undefined` are falsy. -/
def jsTruthy : JSArg α → Bool
  | .fn _ => true
  | .obj _ => true
  | .nullv => false
  | .undef => false

/-- What `resolve` returns: the resolved options and whatever landed in
the callback slot. -/
structure Resolved (α : Type) where
  options : α
  cb : JSArg α
  deriving Repr, DecidableEq

/-- The `resolve` helper of `dn-fs.ts`:
`_options = typeof options === "function" ? defaults : {...defaults, ...options}`
(spreading `null`/`undefined` adds nothing, so those yield the defaults);
`cb = typeof cb === "function" ? cb : options`; then `if (!cb) throw` —
the `Except.error` case models the synchronous throw. -/
def resolveArgs (merge : α → α → α) (defaults : α) (options cb : JSArg α) :
    Except String (Resolved α) :=
  let resolvedOpts : α :=
    match options with
    | .fn _ => defaults
    | .obj o => merge defaults o
    | .nullv => defaults
    | .undef => defaults
  let cb2 := if isFn cb then cb else options
  if jsTruthy cb2 then .ok { options := resolvedOpts, cb := cb2 }
  else .error "Callback function not defined"

/-- One invocation of an error-first callback: either `(null, result)` or
`(err)`. -/
inductive CbCall (ε ρ : Type) where
  | success (r : ρ)
  | failure (e : ε)
  deriving Repr, DecidableEq

/-- The `.then((result) => cb(null, result)).catch((err) => cb(err))`
adapter applied to a settled promise outcome. -/
def deliverOutcome (outcome : Except ε ρ) : CbCall ε ρ :=
  match outcome with
  | .ok r => .success r
  | .error e => .failure e

/-- A whole callback-form API call: resolve the `(options, cb)` pair, run
the promise-form operation on the resolved options, and hand its outcome
to the callback; the result lists the callback invocations made. -/
def cbApiCall (merge : α → α → α) (defaults : α) (options cb : JSArg α)
    (op : α → Except ε ρ) : Except String (List (CbCall ε ρ)) :=
  (resolveArgs merge defaults options cb).map
    (fun r => [deliverOutcome (op r.options)])

/-- The `ReadOptions` record of `dn-fs.ts` (the `signal` field carries no
behavior in the shim and is omitted). -/
structure ReadOpts where
  encoding : Option String := none
  flag : Option String := none
  deriving Repr, DecidableEq

/-- JS object spread `{...d, ...o}` for `ReadOpts`: fields present on `o`
win. -/
def mergeReadOpts (d o : ReadOpts) : ReadOpts :=
  { encoding := o.encoding <|> d.encoding, flag := o.flag <|> d.flag }

/-- The defaults `fs.readFile` passes to `resolve`: `{ encoding: "utf8" }`. -/
def readFileCbDefaults : ReadOpts := { encoding := some "utf8" }

-- ----------------------------------------------------------
-- forAwait (unnamed/part_003) and collect (utils/collect.ts)
-- ----------------------------------------------------------

/-- One settled result of an iterator's `next()` call: the `value` and
`done` properties. -/
structure JSStep (β : Type) where
  value : β
  done : Bool
  deriving Repr, DecidableEq

/-- The drain loop of `forAwait` over the successive `next()` results of
an iterator: `const { value, done } = await iter.next(); if (value) await
cb(value); if (done) break;`. The returned list holds, in order, the
values the per-chunk callback was invoked on. An empty step list models a
source whose `next` never settles, so the loop makes no further calls. -/
def forAwaitCalls (truthy : β → Bool) : List (JSStep β) → List β
  | [] => []
  | s :: rest =>
    (if truthy s.value then [s.value] else []) ++
      (if s.done then [] else forAwaitCalls truthy rest)

/-- Truthiness of the `value` slot of a byte source: a delivered chunk is
a `Uint8Array` object (always truthy, even when empty); `none` models the
`undefined` value accompanying a bare completion step. -/
def chunkTruthy : Option (List Nat) → Bool
  | some _ => true
  | none => false

/-- The chunk buffers `collect` pushes: the truthy values seen by the
drain loop, in delivery order. -/
def collectedChunks (steps : List (JSStep (Option (List Nat)))) :
    List (List Nat) :=
  (forAwaitCalls chunkTruthy steps).reduceOption

/-- `TypedArray.prototype.set(buf, offset)` on a backing list: overwrite
`buf.length` entries starting at `offset`. -/
def typedArraySet (arr : List Nat) (offset : Nat) (buf : List Nat) :
    List Nat :=
  arr.take offset ++ buf ++ arr.drop (offset + buf.length)

/-- The copy loop of `collect`: fold over the pushed buffers, writing each
at the running `nextIndex` into the pre-allocated result array. -/
def copyIntoResult (buffers : List (List Nat)) (acc : List Nat × Nat) :
    List Nat × Nat :=
  buffers.foldl
    (fun st buf => (typedArraySet st.1 st.2 buf, st.2 + buf.length)) acc

/-- `collect(iterable)` from `utils/collect.ts`: drain the source,
recording each truthy chunk and summing byte lengths, allocate one
`Uint8Array(size)` (zero-filled), then copy each chunk at its running
offset. -/
def collect (steps : List (JSStep (Option (List Nat)))) : List Nat :=
  let buffers := collectedChunks steps
  let size := (buffers.map List.length).sum
  (copyIntoResult buffers (List.replicate size 0, 0)).1

/-- The generator-shaped source delivering the given chunks one per step,
then a bare completion step (`{ value: undefined, done: true }`). -/
def mkChunkSource (chunks : List (List Nat)) :
    List (JSStep (Option (List Nat))) :=
  chunks.map (fun c => { value := some c, done := false }) ++
    [{ value := none, done := true }]

-- ----------------------------------------------------------
-- JS values for the forAwait truthiness claim (C9)
-- ----------------------------------------------------------

/-- A JavaScript value as `forAwait`'s `if (value)` guard classifies it. -/
inductive JSVal where
  | undef
  | nullv
  | boolean (b : Bool)
  | num (n : Int)
  | str (s : String)
  | bytes (b : List Nat)
  deriving Repr, DecidableEq

/-- JavaScript truthiness: `undefined`, `null`, `false`, `0` and `""` are
falsy; every object (in particular every `Uint8Array`) is truthy. -/
def jsValTruthy : JSVal → Bool
  | .undef => false
  | .nullv => false
  | .boolean b => b
  | .num n => n != 0
  | .str s => s != ""
  | .bytes _ => true

-- ----------------------------------------------------------
-- UTF-8 (the platform's TextEncoder / TextDecoder and
-- Deno.writeTextFile / Deno.readTextFile text codec)
-- ----------------------------------------------------------

/-- UTF-8 encoding of one Unicode scalar value. -/
def encodeCp (n : Nat) : List Nat :=
  if n < 0x80 then [n]
  else if n < 0x800 then [0xC0 + n / 64, 0x80 + n % 64]
  else if n < 0x10000 then
    [0xE0 + n / 4096, 0x80 + n / 64 % 64, 0x80 + n % 64]
  else
    [0xF0 + n / 262144, 0x80 + n / 4096 % 64, 0x80 + n / 64 % 64,
     0x80 + n % 64]

/-- UTF-8 encoding of a string (the platform's `TextEncoder.encode` and
the byte content `Deno.writeTextFile` persists). -/
def utf8Encode (s : String) : List Nat :=
  (s.data.map (fun c => encodeCp c.toNat)).flatten

/-- The platform `TextEncoder` is UTF-8. -/
def textEncoderEncode (s : String) : List Nat := utf8Encode s

/-- One WHATWG UTF-8 decode step on lead byte `b` with remaining input
`rest`: the scalar value produced (replacement `U+FFFD` on malformed
input) and how many continuation bytes are consumed beyond the lead. The
continuation-byte windows depend on the lead (`E0/ED/F0/F4` restrictions),
overlong leads `C0/C1` and leads above `F4` are invalid, and a malformed
sequence consumes only its well-formed prefix, so decoding resumes at the
offending byte. -/
def decodeStep (b : Nat) (rest : List Nat) : Nat × Nat :=
  if b < 0x80 then (b, 0)
  else if b < 0xC2 then (0xFFFD, 0)
  else if b < 0xE0 then
    match rest with
    | b2 :: _ =>
      if 0x80 ≤ b2 ∧ b2 < 0xC0 then ((b - 0xC0) * 64 + (b2 - 0x80), 1)
      else (0xFFFD, 0)
    | [] => (0xFFFD, 0)
  else if b < 0xF0 then
    match rest with
    | b2 :: b3 :: _ =>
      if (if b = 0xE0 then 0xA0 else 0x80) ≤ b2 ∧
          b2 < (if b = 0xED then 0xA0 else 0xC0) then
        if 0x80 ≤ b3 ∧ b3 < 0xC0 then
          ((b - 0xE0) * 4096 + (b2 - 0x80) * 64 + (b3 - 0x80), 2)
        else (0xFFFD, 1)
      else (0xFFFD, 0)
    | [b2] =>
      if (if b = 0xE0 then 0xA0 else 0x80) ≤ b2 ∧
          b2 < (if b = 0xED then 0xA0 else 0xC0) then (0xFFFD, 1)
      else (0xFFFD, 0)
    | [] => (0xFFFD, 0)
  else if b < 0xF5 then
    match rest with
    | b2 :: b3 :: b4 :: _ =>
      if (if b = 0xF0 then 0x90 else 0x80) ≤ b2 ∧
          b2 < (if b = 0xF4 then 0x90 else 0xC0) then
        if 0x80 ≤ b3 ∧ b3 < 0xC0 then
          if 0x80 ≤ b4 ∧ b4 < 0xC0 then
            ((b - 0xF0) * 262144 + (b2 - 0x80) * 4096 +
              (b3 - 0x80) * 64 + (b4 - 0x80), 3)
          else (0xFFFD, 2)
        else (0xFFFD, 1)
      else (0xFFFD, 0)
    | [b2, b3] =>
      if (if b = 0xF0 then 0x90 else 0x80) ≤ b2 ∧
          b2 < (if b = 0xF4 then 0x90 else 0xC0) then
        if 0x80 ≤ b3 ∧ b3 < 0xC0 then (0xFFFD, 2) else (0xFFFD, 1)
      else (0xFFFD, 0)
    | [b2] =>
      if (if b = 0xF0 then 0x90 else 0x80) ≤ b2 ∧
          b2 < (if b = 0xF4 then 0x90 else 0xC0) then (0xFFFD, 1)
      else (0xFFFD, 0)
    | [] => (0xFFFD, 0)
  else (0xFFFD, 0)

/-- WHATWG UTF-8 decoding to scalar values: one `decodeStep` per emitted
scalar, resuming after the consumed continuation bytes. -/
def decodeCps : List Nat → List Nat
  | [] => []
  | b :: rest =>
    (decodeStep b rest).1 ::
      decodeCps (rest.drop (decodeStep b rest).2)
termination_by l => l.length
decreasing_by simp [List.length_drop]; omega

/-- UTF-8 decoding of a byte buffer to a string (the platform's
`TextDecoder.decode` and the text `Deno.readTextFile` yields). Every
scalar the decoder emits is valid, so `Char.ofNat` never falls back. -/
def utf8Decode (bs : List Nat) : String :=
  String.mk ((decodeCps bs).map Char.ofNat)

-- ----------------------------------------------------------
-- writeFile / readFile over a byte-level file store
-- (dn-fs.ts lines 81-100 and 111-152)
-- ----------------------------------------------------------

/-- The platform file system: paths mapped to byte contents, most recent
write first. -/
abbrev FileStore := List (String × List Nat)

/-- Platform read: content of `p`, or `none` when the path is absent. -/
def lookupFile (st : FileStore) (p : String) : Option (List Nat) :=
  (st.find? (fun e => e.1 == p)).map (fun e => e.2)

/-- Platform write: record the new content for `p`. -/
def storeFile (st : FileStore) (p : String) (b : List Nat) : FileStore :=
  (p, b) :: st

/-- The `data` argument of `writeFile`: a JS string or an `ArrayBuffer`. -/
inductive FileData where
  | str (s : String)
  | buf (b : List Nat)
  deriving Repr, DecidableEq

/-- What `readFile` resolves with: decoded text or raw bytes. -/
inductive ReadResult where
  | text (s : String)
  | bytes (b : List Nat)
  deriving Repr, DecidableEq

/-- The bytes `writeFile` persists (`dn-fs.ts` lines 122-136): a string is
written via `Deno.writeTextFile` under `encoding === "utf8"` and via
`Deno.writeFile(new Uint8Array(new TextEncoder().encode(data)))`
otherwise — UTF-8 bytes either way; an `ArrayBuffer` is decoded with
`TextDecoder` and written as text under `encoding === "utf8"`, and written
raw otherwise. -/
def writeFileBytes (data : FileData) (enc : Option String) : List Nat :=
  match data with
  | .str s =>
    if enc = some "utf8" then utf8Encode s
    else textEncoderEncode s
  | .buf b =>
    if enc = some "utf8" then utf8Encode (utf8Decode b)
    else b

/-- `FS.promises.writeFile` on the store (the happy path: the shim's
catch-block only rewrites an already-exists platform failure, and the
`flag`/`mode` options are never forwarded to the platform calls). -/
def writeFile (st : FileStore) (path : String) (data : FileData)
    (enc : Option String) : FileStore :=
  storeFile st path (writeFileBytes data enc)

/-- `FS.promises.readFile` on the store: `options?.encoding === "utf8"`
selects `Deno.readTextFile`, anything else `Deno.readFile`; a missing path
raises the platform not-found error, which the catch-block maps through
`readFileOnError`. -/
def readFile (st : FileStore) (path : String) (enc : Option String) :
    Except NodeErr ReadResult :=
  match lookupFile st path with
  | some b =>
    .ok (if enc = some "utf8" then .text (utf8Decode b) else .bytes b)
  | none => .error (readFileOnError path denoNotFound)

-- ----------------------------------------------------------
-- HTTP request (http.ts)
-- ----------------------------------------------------------

/-- What the platform `fetch` yields: status, status text, headers and the
response payload (the shim's non-streaming path reads it whole via
`res.arrayBuffer()`). -/
structure FetchResponse where
  url : String
  status : Nat
  statusText : String
  payload : List Nat
  headers : List (String × String)
  deriving Repr, DecidableEq

/-- The response shape `request` returns to the Git library. -/
structure GitHttpResponse where
  url : String
  method : String
  statusCode : Nat
  statusMessage : String
  bodyChunks : List (List Nat)
  headers : List (String × String)
  deriving Repr, DecidableEq

/-- The observable steps `request` takes, in program order. -/
inductive ReqEvent where
  | bodyDrained (buf : List Nat)
  | fetchCalled (body : Option (List Nat))
  deriving Repr, DecidableEq

/-- `request` from `http.ts`, over a platform `fetch` oracle. The source
runs `if (body) { body = await collect(body); }` and only then
`await fetch(url, { method, headers, body })`; the returned event list
records this order, and the `fetchCalled` event carries exactly the body
value the network call receives. The response body models the buffered
(`arrayBuffer`) path as the single-chunk sequence the source builds. -/
def request (fetchFn : Option (List Nat) → FetchResponse)
    (method : String) (body : Option (List (JSStep (Option (List Nat))))) :
    GitHttpResponse × List ReqEvent :=
  match body with
  | some src =>
    let buf := collect src
    let res := fetchFn (some buf)
    ({ url := res.url, method := method, statusCode := res.status,
       statusMessage := res.statusText, bodyChunks := [res.payload],
       headers := res.headers },
     [.bodyDrained buf, .fetchCalled (some buf)])
  | none =>
    let res := fetchFn none
    ({ url := res.url, method := method, statusCode := res.status,
       statusMessage := res.statusText, bodyChunks := [res.payload],
       headers := res.headers },
     [.fetchCalled none])

end DnFs

namespace DnFs

/-- C1 (counterexample): the claim says the synthesized not-found error
carries the name of the failed operation in its `syscall` field, but
`unlink` on a missing path synthesizes an error whose `syscall` is
`"open"`, not `"unlink"`. -/
theorem c1_unlink_syscall_is_open :
    (unlinkOnError "a" denoNotFound).syscall = some "open" ∧
    (unlinkOnError "a" denoNotFound).syscall ≠ some "unlink" := by
  decide

/-- C1 (amended): for every path and platform error, each of `readFile`,
`unlink`, `rmdir`, `lstat`, `readlink`, `stat` maps an error whose message
matches the not-found pattern to a synthesized error with stable code
`"ENOENT"` and a `syscall` field holding `"stat"` for `stat` and `"open"`
for the other five, while an error whose message does not match the
pattern propagates unchanged. -/
theorem c1_notfound_error_mapping (path : String) (err : NodeErr) :
    (notFoundMsg err.message = true →
      readFileOnError path err = enoentErr "open" path ∧
      unlinkOnError path err = enoentErr "open" path ∧
      rmdirOnError path err = enoentErr "open" path ∧
      lstatOnError path err = enoentErr "open" path ∧
      readlinkOnError path err = enoentErr "open" path ∧
      statOnError path err = enoentErr "stat" path ∧
      (enoentErr "open" path).code = some "ENOENT" ∧
      (enoentErr "stat" path).code = some "ENOENT" ∧
      (enoentErr "open" path).syscall = some "open" ∧
      (enoentErr "stat" path).syscall = some "stat") ∧
    (notFoundMsg err.message = false →
      readFileOnError path err = err ∧
      unlinkOnError path err = err ∧
      rmdirOnError path err = err ∧
      lstatOnError path err = err ∧
      readlinkOnError path err = err ∧
      statOnError path err = err) := by
  constructor <;> intro h <;>
    simp [readFileOnError, unlinkOnError, rmdirOnError, lstatOnError,
      readlinkOnError, statOnError, enoentErr, h]

/-- C1 witness: the mapping theorem applied at a concrete path, a concrete
matching platform error and a concrete non-matching one. -/
theorem c1_notfound_error_mapping_witness :
    unlinkOnError "a" denoNotFound = enoentErr "open" "a" ∧
    statOnError "a" denoNotFound = enoentErr "stat" "a" ∧
    unlinkOnError "a" { message := "permission denied" } =
      { message := "permission denied" } :=
  ⟨((c1_notfound_error_mapping "a" denoNotFound).1 (by decide)).2.1,
   ((c1_notfound_error_mapping "a" denoNotFound).1 (by decide)).2.2.2.2.2.1,
   ((c1_notfound_error_mapping "a" { message := "permission denied" }).2
      (by decide)).2.1⟩

/-- C4: evaluated at target `"the-target"` and path `"the-path"`, the shim
creates the link file at `"the-target"` pointing to `"the-path"` — the
reverse of the claimed (and Node-documented) orientation, because the shim
binds `oldPath = path`, `newPath = target` before calling
`Deno.symlink(oldpath, newpath)`, whose second argument is the location of
the created link. -/
theorem c4_symlink_arguments_swapped :
    symlink "the-target" "the-path" =
      { location := "the-target", pointsTo := "the-path" } ∧
    (symlink "the-target" "the-path").location ≠ "the-path" := by
  decide

/-- C2 (counterexample): calling a callback-form operation with a truthy
non-function options argument and no callback at all does NOT throw the
synchronous "Callback function not defined" error the claim promises:
`resolve` puts the options object itself into the callback slot, the
object is truthy, so the `if (!cb) throw` guard passes. -/
theorem c2_missing_callback_no_throw :
    isFn (JSArg.obj { encoding := some "utf8" } : JSArg ReadOpts) = false ∧
    isFn (JSArg.undef : JSArg ReadOpts) = false ∧
    resolveArgs mergeReadOpts readFileCbDefaults
        (JSArg.obj { encoding := some "utf8" }) JSArg.undef =
      .ok { options := { encoding := some "utf8" },
            cb := JSArg.obj { encoding := some "utf8" } } :=
  ⟨rfl, rfl, rfl⟩

/-- C2 (amended): for every callback-form operation, if the argument
before the callback position is a function it is treated as the callback
(unless a separate callback function is also given) and defaults are used
for options; an object argument is merged over the defaults. A synchronous
error is thrown exactly when neither argument is a function and the
pre-callback argument is falsy (`null`/`undefined`); a truthy non-function
pre-callback argument without a callback passes resolution and itself ends
up in the callback slot. Whenever resolution succeeds, the callback slot is
invoked exactly once, with a success exactly when the promise-form
operation succeeded and with the error exactly when it failed — never
both, never neither. -/
theorem c2_resolve_and_single_delivery (α ε ρ : Type) (merge : α → α → α)
    (defaults : α) (options cb : JSArg α) (op : α → Except ε ρ) :
    (isFn options = true →
      resolveArgs merge defaults options cb =
        .ok { options := defaults, cb := if isFn cb then cb else options }) ∧
    (∀ o, options = JSArg.obj o →
      resolveArgs merge defaults options cb =
        .ok { options := merge defaults o,
              cb := if isFn cb then cb else options }) ∧
    ((resolveArgs merge defaults options cb).isOk = false ↔
      (isFn cb = false ∧ jsTruthy options = false)) ∧
    (∀ r, resolveArgs merge defaults options cb = .ok r →
      cbApiCall merge defaults options cb op =
        .ok [deliverOutcome (op r.options)] ∧
      (∀ x, op r.options = .ok x →
        [deliverOutcome (op r.options)] = [.success x]) ∧
      (∀ e, op r.options = .error e →
        [deliverOutcome (op r.options)] = [.failure e])) := by
  refine ⟨?_, ?_, ?_, ?_⟩
  · intro hf
    cases options <;> cases cb <;> simp_all [resolveArgs, isFn, jsTruthy]
  · rintro o rfl
    cases cb <;> simp [resolveArgs, isFn, jsTruthy]
  · cases options <;> cases cb <;>
      simp [resolveArgs, isFn, jsTruthy, Except.isOk, Except.toBool]
  · intro r hr
    refine ⟨by simp [cbApiCall, hr, Except.map], ?_, ?_⟩
    · intro x hx; simp [deliverOutcome, hx]
    · intro e he; simp [deliverOutcome, he]

/-- C2 witness: the amended theorem applied at the concrete call
`fs.readFile(path, cb)` (options omitted, a function in the options slot)
and a concrete succeeding and failing operation. -/
theorem c2_resolve_and_single_delivery_witness :
    resolveArgs mergeReadOpts readFileCbDefaults (JSArg.fn 7) JSArg.undef =
      .ok { options := readFileCbDefaults, cb := JSArg.fn 7 } ∧
    cbApiCall mergeReadOpts readFileCbDefaults (JSArg.fn 7) JSArg.undef
        (fun _ => (.ok 42 : Except String Nat)) = .ok [.success 42] := by
  have h := c2_resolve_and_single_delivery ReadOpts String Nat mergeReadOpts
    readFileCbDefaults (JSArg.fn 7) JSArg.undef (fun _ => .ok 42)
  have h1 := h.1 (by decide)
  refine ⟨by simpa using h1, ?_⟩
  have h4 := h.2.2.2 { options := readFileCbDefaults, cb := JSArg.fn 7 }
    (by simpa using h1)
  have := h4.1
  simpa using this

/-- The copy loop of `collect` writes the buffers contiguously after any
already-written region: starting from a result array that is a written
region `pre` followed by exactly as many zero slots as the buffers need,
with the write offset at `pre.length`, the fold produces `pre ++` the
concatenation of the buffers. -/
theorem copyIntoResult_eq_flatten (bufs : List (List Nat)) (pre : List Nat) :
    (copyIntoResult bufs
        (pre ++ List.replicate ((bufs.map List.length).sum) 0,
         pre.length)).1 = pre ++ bufs.flatten := by
  induction bufs generalizing pre with
  | nil => simp [copyIntoResult]
  | cons b bs ih =>
    have hset :
        typedArraySet
            (pre ++ List.replicate (b.length + (bs.map List.length).sum) 0)
            pre.length b =
          (pre ++ b) ++ List.replicate ((bs.map List.length).sum) 0 := by
      unfold typedArraySet
      rw [List.take_left]
      have hd : List.drop (pre.length + b.length)
          (pre ++ List.replicate (b.length + (bs.map List.length).sum) 0) =
          List.replicate ((bs.map List.length).sum) 0 := by
        rw [List.replicate_add, ← List.append_assoc]
        exact List.drop_left' (by simp)
      rw [hd]
    have := ih (pre ++ b)
    simp only [copyIntoResult, List.foldl_cons, List.map_cons, List.sum_cons] at *
    rw [hset]
    simpa [List.append_assoc] using this

/-- `collect` of any drained source is the concatenation of the chunks the
drain loop delivered. -/
theorem collect_eq_flatten (steps : List (JSStep (Option (List Nat)))) :
    collect steps = (collectedChunks steps).flatten := by
  have := copyIntoResult_eq_flatten (collectedChunks steps) []
  simpa [collect] using this

/-- The drain loop sees exactly the chunks of a generator-shaped source. -/
theorem collectedChunks_mkChunkSource (chunks : List (List Nat)) :
    collectedChunks (mkChunkSource chunks) = chunks := by
  induction chunks with
  | nil => rfl
  | cons c cs ih =>
    simp only [mkChunkSource, List.map_cons, List.cons_append] at *
    simp [collectedChunks, forAwaitCalls, chunkTruthy, List.reduceOption] at *
    exact ih

/-- C6: for every finite async source of byte chunks, `collect` returns a
single buffer whose content is the delivered chunks concatenated in
delivery order and whose byte length is the sum of the chunk lengths; in
particular, for an arbitrary drained source the result is the
concatenation of whatever chunks the drain loop delivered. -/
theorem c6_collect_concatenation (chunks : List (List Nat))
    (steps : List (JSStep (Option (List Nat)))) :
    collect (mkChunkSource chunks) = chunks.flatten ∧
    (collect (mkChunkSource chunks)).length =
      (chunks.map List.length).sum ∧
    collect steps = (collectedChunks steps).flatten := by
  refine ⟨?_, ?_, collect_eq_flatten steps⟩
  · rw [collect_eq_flatten, collectedChunks_mkChunkSource]
  · rw [collect_eq_flatten, collectedChunks_mkChunkSource, List.length_flatten]

/-- C9: when an iterator reports completion (`done = true`) together with
a truthy value, the drain loop still invokes the per-chunk callback on
that value, as the very last invocation; and on every step, a falsy value
(of a final or a non-final step) is skipped. For any run of non-final
steps followed by a final step, the invoked values are exactly the truthy
values in delivery order. -/
theorem c9_forAwait_truthy_values (pfx : List (JSStep JSVal)) (v : JSVal)
    (h : pfx.all (fun s => !s.done) = true) :
    forAwaitCalls jsValTruthy (pfx ++ [{ value := v, done := true }]) =
      (pfx.map JSStep.value ++ [v]).filter jsValTruthy := by
  induction pfx with
  | nil =>
    simp only [List.nil_append, forAwaitCalls, List.map_nil, List.filter_cons,
      List.filter_nil]
    cases hv : jsValTruthy v <;> simp [hv]
  | cons s rest ih =>
    simp only [List.all_cons, Bool.and_eq_true, Bool.not_eq_true'] at h
    have ih2 := ih h.2
    simp only [List.cons_append, forAwaitCalls, h.1, List.map_cons,
      List.filter_cons, ih2]
    cases hv : jsValTruthy s.value <;> simp [hv, ih2, List.filter_append]

/-- C9 witness: a source whose non-final steps deliver the falsy `0`, a
truthy string and a truthy empty byte array, and whose final step carries
a truthy chunk together with `done = true`: the falsy `0` is skipped and
the final chunk is still delivered, last. -/
theorem c9_forAwait_truthy_values_witness :
    (([{ value := JSVal.num 0, done := false },
       { value := JSVal.str "ok", done := false },
       { value := JSVal.bytes [], done := false }] :
        List (JSStep JSVal)).all (fun s => !s.done) = true) ∧
    forAwaitCalls jsValTruthy
        (([{ value := JSVal.num 0, done := false },
           { value := JSVal.str "ok", done := false },
           { value := JSVal.bytes [], done := false }] :
            List (JSStep JSVal)) ++
          [{ value := JSVal.bytes [7], done := true }]) =
      [JSVal.str "ok", JSVal.bytes [], JSVal.bytes [7]] :=
  ⟨by decide,
   by
    have := c9_forAwait_truthy_values
      [{ value := JSVal.num 0, done := false },
       { value := JSVal.str "ok", done := false },
       { value := JSVal.bytes [], done := false }]
      (JSVal.bytes [7]) (by decide)
    simpa [jsValTruthy] using this⟩

/-- A `Char`'s code point is a Unicode scalar value, stated over `Nat`. -/
theorem char_valid_nat (c : Char) :
    c.toNat < 0xd800 ∨ (0xdfff < c.toNat ∧ c.toNat < 0x110000) := by
  rcases c.valid with h | ⟨h1, h2⟩
  · exact Or.inl (UInt32.toNat_lt_of_lt (by decide) h)
  · exact Or.inr ⟨UInt32.lt_toNat_of_lt (by decide) h1,
      UInt32.toNat_lt_of_lt (by decide) h2⟩

/-- Decoding inverts encoding on one scalar value, in front of any byte
tail. -/
theorem decodeCps_encodeCp (n : Nat)
    (hv : n < 0xd800 ∨ (0xdfff < n ∧ n < 0x110000)) (tl : List Nat) :
    decodeCps (encodeCp n ++ tl) = n :: decodeCps tl := by
  by_cases h1 : n < 0x80
  · have he : encodeCp n = [n] := by unfold encodeCp; rw [if_pos h1]
    have hstep : decodeStep n tl = (n, 0) := by
      unfold decodeStep; rw [if_pos h1]
    rw [he, List.cons_append, List.nil_append]
    simp only [decodeCps, hstep, List.drop_zero]
  · by_cases h2 : n < 0x800
    · have he : encodeCp n = [0xC0 + n / 64, 0x80 + n % 64] := by
        unfold encodeCp; rw [if_neg h1, if_pos h2]
      have hstep : decodeStep (0xC0 + n / 64) ((0x80 + n % 64) :: tl)
          = (n, 1) := by
        unfold decodeStep
        rw [if_neg (by omega), if_neg (by omega), if_pos (by omega)]
        show (if 0x80 ≤ 0x80 + n % 64 ∧ 0x80 + n % 64 < 0xC0 then
            ((0xC0 + n / 64 - 0xC0) * 64 + (0x80 + n % 64 - 0x80), 1)
          else (0xFFFD, 0)) = (n, 1)
        rw [if_pos (by omega)]
        have hval : (0xC0 + n / 64 - 0xC0) * 64 + (0x80 + n % 64 - 0x80)
            = n := by omega
        rw [hval]
      rw [he]
      show decodeCps ((0xC0 + n / 64) :: (0x80 + n % 64) :: tl)
        = n :: decodeCps tl
      simp only [decodeCps, hstep, List.drop_succ_cons, List.drop_zero]
    · by_cases h3 : n < 0x10000
      · have he : encodeCp n =
            [0xE0 + n / 4096, 0x80 + n / 64 % 64, 0x80 + n % 64] := by
          unfold encodeCp; rw [if_neg h1, if_neg h2, if_pos h3]
        have hA : (if 0xE0 + n / 4096 = 0xE0 then 0xA0 else 0x80) ≤
            0x80 + n / 64 % 64 ∧
            0x80 + n / 64 % 64 <
              (if 0xE0 + n / 4096 = 0xED then 0xA0 else 0xC0) := by
          constructor
          · split <;> omega
          · split <;> omega
        have hstep : decodeStep (0xE0 + n / 4096)
            ((0x80 + n / 64 % 64) :: (0x80 + n % 64) :: tl) = (n, 2) := by
          unfold decodeStep
          rw [if_neg (by omega), if_neg (by omega), if_neg (by omega),
            if_pos (by omega)]
          show (if (if 0xE0 + n / 4096 = 0xE0 then 0xA0 else 0x80) ≤
              0x80 + n / 64 % 64 ∧
              0x80 + n / 64 % 64 <
                (if 0xE0 + n / 4096 = 0xED then 0xA0 else 0xC0) then
              if 0x80 ≤ 0x80 + n % 64 ∧ 0x80 + n % 64 < 0xC0 then
                ((0xE0 + n / 4096 - 0xE0) * 4096 +
                  (0x80 + n / 64 % 64 - 0x80) * 64 +
                  (0x80 + n % 64 - 0x80), 2)
              else (0xFFFD, 1)
            else (0xFFFD, 0)) = (n, 2)
          rw [if_pos hA, if_pos (by omega)]
          have hval : (0xE0 + n / 4096 - 0xE0) * 4096 +
              (0x80 + n / 64 % 64 - 0x80) * 64 + (0x80 + n % 64 - 0x80)
              = n := by omega
          rw [hval]
        rw [he]
        show decodeCps ((0xE0 + n / 4096) :: (0x80 + n / 64 % 64) ::
          (0x80 + n % 64) :: tl) = n :: decodeCps tl
        simp only [decodeCps, hstep, List.drop_succ_cons, List.drop_zero]
      · have h4 : n < 0x110000 := by omega
        have he : encodeCp n =
            [0xF0 + n / 262144, 0x80 + n / 4096 % 64, 0x80 + n / 64 % 64,
             0x80 + n % 64] := by
          unfold encodeCp; rw [if_neg h1, if_neg h2, if_neg h3]
        have hA : (if 0xF0 + n / 262144 = 0xF0 then 0x90 else 0x80) ≤
            0x80 + n / 4096 % 64 ∧
            0x80 + n / 4096 % 64 <
              (if 0xF0 + n / 262144 = 0xF4 then 0x90 else 0xC0) := by
          constructor
          · split <;> omega
          · split <;> omega
        have hstep : decodeStep (0xF0 + n / 262144)
            ((0x80 + n / 4096 % 64) :: (0x80 + n / 64 % 64) ::
              (0x80 + n % 64) :: tl) = (n, 3) := by
          unfold decodeStep
          rw [if_neg (by omega), if_neg (by omega), if_neg (by omega),
            if_neg (by omega), if_pos (by omega)]
          show (if (if 0xF0 + n / 262144 = 0xF0 then 0x90 else 0x80) ≤
              0x80 + n / 4096 % 64 ∧
              0x80 + n / 4096 % 64 <
                (if 0xF0 + n / 262144 = 0xF4 then 0x90 else 0xC0) then
              if 0x80 ≤ 0x80 + n / 64 % 64 ∧ 0x80 + n / 64 % 64 < 0xC0 then
                if 0x80 ≤ 0x80 + n % 64 ∧ 0x80 + n % 64 < 0xC0 then
                  ((0xF0 + n / 262144 - 0xF0) * 262144 +
                    (0x80 + n / 4096 % 64 - 0x80) * 4096 +
                    (0x80 + n / 64 % 64 - 0x80) * 64 +
                    (0x80 + n % 64 - 0x80), 3)
                else (0xFFFD, 2)
              else (0xFFFD, 1)
            else (0xFFFD, 0)) = (n, 3)
          rw [if_pos hA, if_pos (by omega), if_pos (by omega)]
          have hval : (0xF0 + n / 262144 - 0xF0) * 262144 +
              (0x80 + n / 4096 % 64 - 0x80) * 4096 +
              (0x80 + n / 64 % 64 - 0x80) * 64 + (0x80 + n % 64 - 0x80)
              = n := by omega
          rw [hval]
        rw [he]
        show decodeCps ((0xF0 + n / 262144) :: (0x80 + n / 4096 % 64) ::
          (0x80 + n / 64 % 64) :: (0x80 + n % 64) :: tl)
          = n :: decodeCps tl
        simp only [decodeCps, hstep, List.drop_succ_cons, List.drop_zero]

/-- Decoding inverts encoding on a whole character list. -/
theorem decodeCps_utf8Encode_chars (cs : List Char) :
    decodeCps ((cs.map (fun c => encodeCp c.toNat)).flatten)
      = cs.map Char.toNat := by
  induction cs with
  | nil => simp [decodeCps]
  | cons c cs ih =>
    simp only [List.map_cons, List.flatten_cons]
    rw [decodeCps_encodeCp c.toNat (char_valid_nat c), ih]

/-- The platform text codec round-trips: `TextDecoder.decode` (equally,
`Deno.readTextFile`) inverts `TextEncoder.encode` (equally,
`Deno.writeTextFile`) on every string. -/
theorem utf8Decode_utf8Encode (s : String) :
    utf8Decode (utf8Encode s) = s := by
  unfold utf8Decode utf8Encode
  rw [decodeCps_utf8Encode_chars, List.map_map]
  have hmap : s.data.map (Char.ofNat ∘ Char.toNat) = s.data.map id := by
    apply List.map_congr_left
    intro c _
    simp [Function.comp, Char.ofNat_toNat]
  rw [hmap, List.map_id]

/-- Reading back the path just written yields the written content. -/
theorem lookupFile_storeFile (st : FileStore) (p : String) (b : List Nat) :
    lookupFile (storeFile st p b) p = some b := by
  simp [lookupFile, storeFile, List.find?_cons_of_pos]

/-- C7: `write-file` followed by `read-file` on the same path with
corresponding encoding options returns the written content, for both the
text and the binary encoding; moreover a string is written as (UTF-8) raw
bytes via `TextEncoder` when the encoding is non-text, and binary data is
decoded as text (then re-encoded by the text write) when the encoding is
the text encoding. -/
theorem c7_write_read_roundtrip (st : FileStore) (path : String)
    (s : String) (b : List Nat) :
    readFile (writeFile st path (.str s) (some "utf8")) path (some "utf8")
      = .ok (.text s) ∧
    readFile (writeFile st path (.buf b) none) path none
      = .ok (.bytes b) ∧
    writeFileBytes (.str s) none = textEncoderEncode s ∧
    writeFileBytes (.buf b) (some "utf8") = utf8Encode (utf8Decode b) := by
  refine ⟨?_, ?_, by simp [writeFileBytes], by simp [writeFileBytes]⟩
  · simp [readFile, writeFile, writeFileBytes, lookupFile_storeFile,
      utf8Decode_utf8Encode]
  · simp [readFile, writeFile, writeFileBytes, lookupFile_storeFile]

/-- C8: whenever a request body is supplied, the whole source is drained
into one contiguous buffer — the concatenation of every delivered chunk —
strictly before the network call, and the network call receives exactly
that single buffer (never a stream, never a partial drain); with no body,
the network call receives no body. -/
theorem c8_request_drains_body_first
    (fetchFn : Option (List Nat) → FetchResponse) (method : String)
    (src : List (JSStep (Option (List Nat)))) :
    (request fetchFn method (some src)).2 =
      [ReqEvent.bodyDrained ((collectedChunks src).flatten),
       ReqEvent.fetchCalled (some ((collectedChunks src).flatten))] ∧
    (request fetchFn method none).2 = [ReqEvent.fetchCalled none] := by
  constructor
  · simp [request, collect_eq_flatten]
  · rfl

/-- C3 (counterexample): on a platform metadata record with every base
timestamp absent (`atime = mtime = birthtime = ctime = null`), the
augmented record still carries a derived change-time millisecond field
(`ctimeMs = 0`, the epoch value of `new Date(null)`), while its base
change-time field is absent — refuting the claimed present-iff-present
invariant. -/
theorem c3_ctimeMs_present_without_base :
    (lstatAugment { atime := none, mtime := none,
                    birthtime := none, ctime := none }).ctimeMs = some 0 ∧
    (lstatAugment { atime := none, mtime := none,
                    birthtime := none, ctime := none }).ctime = none := by
  decide

/-- C3 (amended): for every platform metadata record, the derived
millisecond fields for access, modification and creation time are present
exactly when their base fields are, and equal their millisecond epoch
values; the change-time base field defaults to the creation-time field;
the derived change-time millisecond field is always present — it equals
the millisecond value of the defaulted change time when one exists and `0`
(the epoch value of `new Date(null)`) when both change and creation time
are absent. -/
theorem c3_lstat_derived_timestamps (fi : DenoFileInfo) :
    (lstatAugment fi).atimeMs = fi.atime ∧
    (lstatAugment fi).mtimeMs = fi.mtime ∧
    (lstatAugment fi).birthtimeMs = fi.birthtime ∧
    (lstatAugment fi).ctime = (fi.ctime <|> fi.birthtime) ∧
    (lstatAugment fi).ctimeMs = some ((fi.ctime <|> fi.birthtime).getD 0) ∧
    (lstatAugment fi).atime = fi.atime ∧
    (lstatAugment fi).mtime = fi.mtime ∧
    (lstatAugment fi).birthtime = fi.birthtime := by
  cases fi with
  | mk a m b c =>
    cases a <;> cases m <;> cases b <;> cases c <;>
      simp [lstatAugment, newDateGetTime]

/-- Exhausted `fromValue` state: every further `next()` call resolves with
`done = true` and no value, and leaves the queue empty. -/
theorem fromValueRun_nil (α : Type) (n : Nat) :
    fromValueRun ([] : List α) n = List.replicate n (true, none) := by
  induction n with
  | zero => rfl
  | succ k ih =>
    simp [fromValueRun, fromValueNext, jsPop, ih, List.replicate]

/-- C10: for the one-element iterator produced by `fromValue(v)`, the
first `next()` resolves with `done = false` and value `v`; every later
`next()` — any number of calls — resolves with `done = true` and no
value; and after `return()` is called in any state, every subsequent
`next()` also resolves with `done = true` and no value. The wrapped value
is therefore delivered at most once and the iterator never restarts. -/
theorem c10_fromValue_single_delivery (α : Type) (v : α) (q : List α) (n : Nat) :
    fromValueRun [v] (n + 1) =
      (false, some v) :: List.replicate n (true, none) ∧
    fromValueRun (fromValueIterReturn q) n = List.replicate n (true, none) := by
  constructor
  · simp [fromValueRun, fromValueNext, jsPop, fromValueRun_nil]
  · simp [fromValueIterReturn, fromValueRun_nil]

/-- C5: evaluated at the octal-string mode `"777"`, the shim passes the
decimal number `777` (= `0o1411`) to the platform mkdir, not `0o777 = 511`:
`parseInt` is called without a radix, so the string is read as decimal and
the claimed octal normalization does not happen. -/
theorem c5_mkdir_string_mode_not_octal :
    normalizeMode (.str "777") = some 777 ∧
    normalizeMode (.str "777") ≠ some 0o777 ∧
    normalizeMode (.num 0o777) = some 511 := by
  decide

end DnFs
